import Mathlib

/-!
Verification of the blingalytics report engine core.

This file gives a shallow embedding, in Lean, of the row-merge and
footer-aggregation core of the blingalytics reporting library
(blingalytics/base.py, blingalytics/sources/__init__.py,
blingalytics/sources/derived.py, blingalytics/sources/key_range.py,
blingalytics/sources/merge.py), and proves properties of that embedding.

Modelling conventions:
* Python cell values are modelled by `Bling.Cell`: `Cell.none` is Python
  `None`, `Cell.num q` covers the addable numeric types
  (`int`, `long`, `float`, `Decimal` - the `ADD_TYPES` tuple of
  sources/__init__.py - all of which embed in the rationals and add
  exactly), and `Cell.str s` is a Python string.
* Python dicts mapping column names to cell values are modelled as
  duplicate-free association lists (`Bling.Dict`) with in-place update
  (`dictSet`) and `dict.update` (`dictUpdate`) exactly as CPython
  behaves; dict equality in claims is stated through `dictGet`.
* Report keys are Python tuples of integers, modelled as `List Int`
  with Python tuple comparison (`keyLt`).
* Generators are modelled as the lists of values they yield; exceptions
  are modelled with `Except`.
-/

namespace Bling

/-- A Python cell value: None, an addable number (int, long, float,
Decimal, the ADD_TYPES of blingalytics/sources/__init__.py), or a
string. -/
inductive Cell where
  | none : Cell
  | num : ℚ → Cell
  | str : String → Cell
  deriving DecidableEq, Repr

/-- Python truthiness of a cell value: None, zero and the empty string
are falsy, everything else is truthy. -/
def Cell.truthy : Cell → Bool
  | Cell.none => false
  | Cell.num q => decide (q ≠ 0)
  | Cell.str s => decide (s ≠ "")

/-- A Python dict from column names to cell values, as an association
list without duplicate keys (CPython dicts never hold a key twice). -/
abbrev Dict := List (String × Cell)

/-- Python `d.get(k)` / `d[k]` lookup, as an `Option`. -/
def dictGet : Dict → String → Option Cell
  | [], _ => Option.none
  | (k, v) :: rest, key => if k = key then some v else dictGet rest key

/-- Python `d[k]` where the caller guarantees the key is present (it
would raise KeyError otherwise); absent keys default to `Cell.none`,
and every theorem below only applies it where the key is present. -/
def dictGetD (d : Dict) (key : String) : Cell :=
  (dictGet d key).getD Cell.none

/-- Python `d[k] = v`: replace in place if the key is present,
otherwise append the new binding. -/
def dictSet : Dict → String → Cell → Dict
  | [], key, v => [(key, v)]
  | (k, w) :: rest, key, v =>
    if k = key then (k, v) :: rest else (k, w) :: dictSet rest key v

/-- Python `d.update(e)`: set every binding of `e` into `d`, in order. -/
def dictUpdate (d e : Dict) : Dict :=
  e.foldl (fun acc p => dictSet acc p.1 p.2) d

/-- A report key: the Python tuple of per-key-column scalar values. -/
abbrev Key := List Int

/-- Python tuple comparison `a < b` on integer tuples: lexicographic,
with a proper prefix comparing less than any extension. -/
def keyLt : Key → Key → Bool
  | [], [] => false
  | [], _ :: _ => true
  | _ :: _, [] => false
  | a :: as, b :: bs =>
    if a < b then true else if b < a then false else keyLt as bs

/-- Python tuple comparison `a <= b`. -/
def keyLe (a b : Key) : Bool := !keyLt b a

/-- A stream element: one `(key, partial_row)` pair yielded by a key-row
iterator or by a source's `get_rows`. -/
abbrev KeyedRow := Key × Dict

/-- The sorted-stream contract of `Source.get_rows` and of the key-row
stream: pairs are yielded in non-decreasing key order. -/
def sortedPairs (l : List KeyedRow) : Prop :=
  l.Pairwise (fun a b => keyLe a.1 b.1 = true)

instance (l : List KeyedRow) : Decidable (sortedPairs l) := by
  unfold sortedPairs
  infer_instance

/-- Two-way merge of key-sorted streams, keeping the left stream's
element on ties: together with `kMerge` below this models
`heapq.merge(*source_rows)` in `Report._get_rows`. `heapq.merge`
performs a k-way merge that yields a non-decreasing interleaving of its
sorted input streams; among pairs with equal keys CPython orders by
comparing the full `(key, row_dict)` tuples, but every theorem below is
insensitive to the relative order of equal-key pairs. -/
def pyMerge : List KeyedRow → List KeyedRow → List KeyedRow
  | [], l2 => l2
  | l1, [] => l1
  | a :: as, b :: bs =>
    if keyLt b.1 a.1 then b :: pyMerge (a :: as) bs
    else a :: pyMerge as (b :: bs)
  termination_by l1 l2 => l1.length + l2.length

/-- k-way merge of all the streams, as iterated two-way merges. -/
def kMerge (streams : List (List KeyedRow)) : List KeyedRow :=
  streams.foldr pyMerge []

/-- The post-processing pass applied to each completed row before it is
emitted: the loop `for source in self._sources:
current_row = source.post_process(current_row, self.clean_inputs)` of
`Report._get_rows`, with one function per source instance. -/
def applyPosts (posts : List (Dict → Dict)) (row : Dict) : Dict :=
  posts.foldl (fun r f => f r) row

/-- The all-None template row of `Report._get_rows`:
`empty_row = dict(map(lambda a: (a[0], None), self.columns))`. -/
def emptyRow (columns : List String) : Dict :=
  columns.map (fun c => (c, Cell.none))

/-- The merge loop of `Report._get_rows` over the already-merged stream
of `(key, source_row)` pairs. The accumulator `acc` carries
`current_key` and `current_row`; `Option.none` models the initial
`current_key = None, current_row = None`. The Python guard
`if current_key and current_key == key` tests the truthiness of
`current_key`, so the guard also fails on an empty tuple; the `else`
branch emits the finished row (after post-processing) whenever
`current_key is not None` and then seeds a fresh accumulator from the
template row. Each emitted pair carries the value of `current_key` at
emission time next to the emitted row (the Python generator yields just
the row; the key is a loop variable, recorded here so that theorems can
speak about emission order by key). -/
def mergeLoop (posts : List (Dict → Dict)) (tmpl : Dict) :
    List KeyedRow → Option KeyedRow → List KeyedRow
  | [], Option.none => []
  | [], some (ck, cr) => [(ck, applyPosts posts cr)]
  | (key, srow) :: rest, Option.none =>
    mergeLoop posts tmpl rest (some (key, dictUpdate tmpl srow))
  | (key, srow) :: rest, some (ck, cr) =>
    if ck ≠ [] ∧ ck = key then
      mergeLoop posts tmpl rest (some (ck, dictUpdate cr srow))
    else
      (ck, applyPosts posts cr) ::
        mergeLoop posts tmpl rest (some (key, dictUpdate tmpl srow))

/-- `itertools.product` over the per-key-range key value lists, the
rightmost range varying fastest. -/
def keyProduct : List (List Int) → List (List Int)
  | [] => [[]]
  | l :: ls => (l.map (fun x => (keyProduct ls).map (fun rest => x :: rest))).flatten

/-- `Report._get_key_rows`: for each key in the product of the key
ranges, a full row holding just the key columns
(`(key, dict(zip(key_names, key)))`). -/
def getKeyRows (keyRanges : List (String × List Int)) : List KeyedRow :=
  (keyProduct (keyRanges.map Prod.snd)).map
    (fun k => (k, (List.zip (keyRanges.map Prod.fst) k).map
      (fun p => (p.1, Cell.num (p.2 : ℚ)))))

/-- `Report._get_rows`: merge each source's `get_rows` stream together
with the key-row stream (appended last, as in
`source_rows.append(teed_key_rows[-1])`), then run the merge loop from
the empty accumulator. -/
def getRows (posts : List (Dict → Dict)) (columns : List String)
    (sourceStreams : List (List KeyedRow)) (keyRows : List KeyedRow) :
    List KeyedRow :=
  mergeLoop posts (emptyRow columns) (kMerge (sourceStreams ++ [keyRows]))
    Option.none

/-- The outcome of calling a user-supplied derive function on a row:
a returned value; a raised TypeError (an operand was None); or a raised
arithmetic-domain error, covering `decimal.InvalidOperation` and
`ZeroDivisionError` - the `DIVISION_BY_ZERO` tuple of
sources/derived.py. -/
inductive PyResult where
  | ok : Cell → PyResult
  | typeError : PyResult
  | zeroDivision : PyResult
  deriving DecidableEq, Repr

/-- `Column.increment_footer` of sources/__init__.py, the default
footer accumulation, with `self.footer` passed as `footerFlag`. Arm by
arm: both operands in ADD_TYPES returns `total + cell`; an addable
total with a non-addable cell returns `total`; a non-addable total with
an addable cell returns `cell`; otherwise control falls through to
`return None`. `footer` false always returns None. -/
def incrementDefault (footerFlag : Bool) (total cell : Cell) : Cell :=
  if footerFlag then
    match total, cell with
    | Cell.num a, Cell.num b => Cell.num (a + b)
    | Cell.num a, _ => Cell.num a
    | _, Cell.num b => Cell.num b
    | _, _ => Cell.none
  else Cell.none

/-- The column kinds the claims exercise: a plain `sources.Column`
(carrying its `footer` option) and `derived.Value` (carrying `footer`
and its `derive_func`). `derived.Value` inherits the base
`increment_footer` and overrides `finalize_footer`. -/
inductive Column where
  | base (footerFlag : Bool)
  | value (footerFlag : Bool) (derive : Dict → PyResult)

/-- The `self.footer` option of a column. -/
def Column.footerFlag : Column → Bool
  | Column.base fl => fl
  | Column.value fl _ => fl

/-- `Column.increment_footer`: both column kinds use the default
accumulation (derived.Value does not override it). -/
def Column.increment_footer (c : Column) (total cell : Cell) : Cell :=
  incrementDefault c.footerFlag total cell

/-- `derived.Value.get_derived_value`: a TypeError from the derive
function degrades to None, a division-by-zero error degrades to
`Decimal('0.00')`. -/
def get_derived_value (derive : Dict → PyResult) (row : Dict) : Cell :=
  match derive row with
  | PyResult.ok v => v
  | PyResult.typeError => Cell.none
  | PyResult.zeroDivision => Cell.num 0

/-- `finalize_footer`: `sources.Column.finalize_footer` returns the
running total unchanged; `derived.Value.finalize_footer` re-runs the
derive function on the footer snapshot, degrading a TypeError to the
running total and a division-by-zero to `Decimal('0.00')`, and returns
None (implicitly) when the column's footer option is off. -/
def Column.finalize_footer (c : Column) (total : Cell) (footer : Dict) : Cell :=
  match c with
  | Column.base _ => total
  | Column.value fl derive =>
    if fl then
      match derive footer with
      | PyResult.ok v => v
      | PyResult.typeError => total
      | PyResult.zeroDivision => Cell.num 0
    else Cell.none

/-- `derived.DerivedSource.post_process`: set each derived column of
the row to its derived value, in declared order, each assignment
visible to the later ones (the Python loop mutates the row dict in
place). -/
def derivedPost (cols : List (String × Column)) (row : Dict) : Dict :=
  cols.foldl
    (fun r p =>
      match p.2 with
      | Column.value _ derive => dictSet r p.1 (get_derived_value derive r)
      | _ => r)
    row

/-- The per-run footer state of a Report: `_footer_increment_complete`,
`_footer_finalized`, `_footer` and `_row_count`. -/
structure FooterState where
  incrementComplete : Bool
  finalized : Bool
  footer : Dict
  rowCount : Nat
  deriving DecidableEq, Repr

/-- `Report._init_footer`: all tracking reset, one None running total
per column name. -/
def initFooterState (cols : List (String × Column)) : FooterState :=
  { incrementComplete := false, finalized := false,
    footer := cols.map (fun p => (p.1, Cell.none)), rowCount := 0 }

/-- `Report._increment_footer`: bump `_row_count` and replace each
column's running total with
`column.increment_footer(footer[name], row[name])`. The Python loop
runs over the footer dict's keys, each exactly once; it is modelled in
declared column order. -/
def incrementFooterState (cols : List (String × Column))
    (st : FooterState) (row : Dict) : FooterState :=
  { st with
    rowCount := st.rowCount + 1,
    footer := cols.foldl
      (fun f p => dictSet f p.1
        (Column.increment_footer p.2 (dictGetD f p.1) (dictGetD row p.1)))
      st.footer }

/-- The finalization loop of `Report._get_footer`: each column's total
is replaced by `finalize_footer(footer[name], footer)`, where the
second argument is the footer dict as already updated by the earlier
iterations (the Python loop mutates `self._footer` in place while
iterating over it). -/
def finalizeFooterDict (cols : List (String × Column)) (footer : Dict) : Dict :=
  cols.foldl
    (fun f p => dictSet f p.1 (Column.finalize_footer p.2 (dictGetD f p.1) f))
    footer

/-- `Report._get_footer`: raises ValueError unless `_get_rows` has been
exhausted; finalizes the footer exactly once; returns the finalized
footer dict (paired here with the updated state, since the Python
method mutates `self`). -/
def getFooterState (cols : List (String × Column)) (st : FooterState) :
    Except String (FooterState × Dict) :=
  if st.incrementComplete = false then
    Except.error
      "You must exhaust report._get_rows before you can access the footer."
  else if st.finalized = false then
    let f := finalizeFooterDict cols st.footer
    Except.ok ({ st with footer := f, finalized := true }, f)
  else
    Except.ok (st, st.footer)

/-- The footer state after the consumer of the `_get_rows` generator
has pulled `k` rows: each yielded row has passed through
`_increment_footer` just before its yield, and
`_footer_increment_complete` is still False, because that flag is only
set when the generator is resumed past its final yield. -/
def pullRows (cols : List (String × Column)) (posts : List (Dict → Dict))
    (sourceStreams : List (List KeyedRow)) (keyRows : List KeyedRow)
    (k : Nat) : FooterState :=
  ((getRows posts (cols.map Prod.fst) sourceStreams keyRows).take k).foldl
    (fun st p => incrementFooterState cols st p.2) (initFooterState cols)

/-- The footer state once the `_get_rows` generator has been fully
exhausted: every emitted row incremented into the footer and
`_footer_increment_complete` set. -/
def exhaustRows (cols : List (String × Column)) (posts : List (Dict → Dict))
    (sourceStreams : List (List KeyedRow)) (keyRows : List KeyedRow) :
    FooterState :=
  { (getRows posts (cols.map Prod.fst) sourceStreams keyRows).foldl
      (fun st p => incrementFooterState cols st p.2) (initFooterState cols)
    with incrementComplete := true }

/-- The numeric value of an ADD_TYPES cell, used to state what the
default footer accumulation computes. -/
def numOf : Cell → Option ℚ
  | Cell.num q => some q
  | _ => Option.none

/-- A concrete derive function, `lambda row: row['n'] / row['g']` over
Decimal cells: a None (or missing) operand raises TypeError, a zero
denominator raises a division error, otherwise the quotient is
returned. -/
def ratioDerive (row : Dict) : PyResult :=
  match dictGet row "n", dictGet row "g" with
  | some (Cell.num a), some (Cell.num b) =>
    if b = 0 then PyResult.zeroDivision else PyResult.ok (Cell.num (a / b))
  | _, _ => PyResult.typeError

/-- Columns of the concrete derived-footer report: two summed base
columns and a derived ratio column. -/
def c6cols : List (String × Column) :=
  [("n", Column.base true), ("g", Column.base true),
    ("ratio", Column.value true ratioDerive)]

/-- Source stream of the concrete derived-footer report: rows
`n=1, g=2` at key `(1,)` and `n=3, g=4` at key `(2,)`. -/
def c6streams : List (List KeyedRow) :=
  [[([1], [("n", Cell.num 1), ("g", Cell.num 2)]),
    ([2], [("n", Cell.num 3), ("g", Cell.num 4)])]]

/-- A user-input widget as `Report.clean_user_inputs` sees it:
`form_name` (the report-code-name-prefixed HTML field name), `_name`
(the filter name, called `shortName` here), and the `clean` method,
which returns the cleaned value or raises a ValidationError (modelled
as the error message). -/
structure Widget where
  formName : String
  shortName : String
  clean : Cell → Except String Cell

/-- The user-input state carried by a report instance:
`self.dirty_inputs` and `self.clean_inputs`. -/
structure InputState where
  dirtyInputs : Dict
  cleanInputs : Dict
  deriving DecidableEq, Repr

/-- One iteration of the widget loop in `Report.clean_user_inputs`,
threading the local `(dirty_inputs, clean_inputs, errors)` accumulator:
fetch the dirty input under the widget's form name (from `kwargs`, then
the local dirty copy); if that value is falsy, refetch under the
widget's short `_name`; `clean` it, recording the value under `_name`
or appending the ValidationError; finally store the dirty input under
whichever name was used. -/
def cleanStep (kwargs : Dict) (acc : Dict × Dict × List String)
    (w : Widget) : Dict × Dict × List String :=
  let dirty := acc.1
  let clean := acc.2.1
  let errs := acc.2.2
  let dinput0 := (dictGet kwargs w.formName).getD
    ((dictGet dirty w.formName).getD Cell.none)
  let pair :=
    if Cell.truthy dinput0 = false then
      (w.shortName,
        (dictGet kwargs w.shortName).getD
          ((dictGet dirty w.shortName).getD Cell.none))
    else (w.formName, dinput0)
  let cleanErrs :=
    match w.clean pair.2 with
    | Except.ok v => (dictSet clean w.shortName v, errs)
    | Except.error e => (clean, errs ++ [e])
  (dictSet dirty pair.1 pair.2, cleanErrs.1, cleanErrs.2)

/-- `Report.clean_user_inputs`: run the widget loop on a copy of the
dirty inputs, then commit - on any error the report keeps its dirty
inputs, sets `clean_inputs = {}` and returns the errors; with no errors
both snapshots are replaced. Filters without a widget are skipped by
the Python loop, so the embedding takes the widget list directly. -/
def clean_user_inputs (widgets : List Widget) (st : InputState)
    (kwargs : Dict) : List String × InputState :=
  let res := widgets.foldl (cleanStep kwargs) (st.dirtyInputs, [], [])
  if res.2.2 ≠ [] then (res.2.2, { st with cleanInputs := [] })
  else (res.2.2, { dirtyInputs := res.1, cleanInputs := res.2.1 })

/-- A concrete widget: required value 1; anything else fails
validation. -/
def c8widget : Widget :=
  { formName := "rep_w", shortName := "w",
    clean := fun c =>
      if c = Cell.num 1 then Except.ok (Cell.num 1)
      else Except.error "bad" }

/-- A report input state as left by an earlier successful
`clean_user_inputs` call: non-empty dirty and clean snapshots. -/
def c8state : InputState :=
  { dirtyInputs := [("rep_w", Cell.num 1)],
    cleanInputs := [("w", Cell.num 1)] }

/-- Fresh user input that fails the widget's validation. -/
def c8kwargs : Dict := [("rep_w", Cell.num 2)]

/-- A Gregorian calendar date, as `datetime.date`. -/
structure Date where
  year : Int
  month : Int
  day : Int
  deriving DecidableEq, Repr

/-- Python `date` comparison `a < b`: lexicographic on
(year, month, day). -/
def Date.ltb (a b : Date) : Bool :=
  if a.year < b.year then true
  else if b.year < a.year then false
  else if a.month < b.month then true
  else if b.month < a.month then false
  else decide (a.day < b.day)

/-- Python `date` comparison `a <= b`. -/
def Date.leb (a b : Date) : Bool := !Date.ltb b a

/-- The Gregorian leap-year rule used by `datetime`. -/
def isLeapYear (y : Int) : Bool :=
  y % 4 = 0 && (y % 100 ≠ 0 || y % 400 = 0)

/-- Number of days in a month of the Gregorian calendar. -/
def daysInMonth (y m : Int) : Int :=
  if m = 2 then (if isLeapYear y then 29 else 28)
  else if m = 4 ∨ m = 6 ∨ m = 9 ∨ m = 11 then 30
  else 31

/-- `date.replace(day=1)`. -/
def Date.firstOfMonth (d : Date) : Date := { d with day := 1 }

/-- `date + timedelta(days=31)` for the dates the month loop feeds it
(always the first day of a month, for which the sum lands in the
following month). -/
def Date.plus31 (d : Date) : Date :=
  if d.day + 31 ≤ daysInMonth d.year d.month then
    { d with day := d.day + 31 }
  else if d.month = 12 then
    { year := d.year + 1, month := 1,
      day := d.day + 31 - daysInMonth d.year d.month }
  else
    { year := d.year, month := d.month + 1,
      day := d.day + 31 - daysInMonth d.year d.month }

/-- `date + timedelta(days=1)`. -/
def Date.nextDay (d : Date) : Date :=
  if d.day + 1 ≤ daysInMonth d.year d.month then { d with day := d.day + 1 }
  else if d.month = 12 then { year := d.year + 1, month := 1, day := 1 }
  else { year := d.year, month := d.month + 1, day := 1 }

/-- `epoch.datetime_to_hours(date) / 24`: the number of days from the
UNIX epoch (1970-01-01) to the date, computed with the standard
days-from-civil formula (floor divisions). -/
def toEpochDays (d : Date) : Int :=
  let yy := if d.month ≤ 2 then d.year - 1 else d.year
  let era := Int.fdiv yy 400
  let yoe := yy - era * 400
  let mp := Int.emod (d.month + 9) 12
  let doy := Int.fdiv (153 * mp + 2) 5 + d.day - 1
  let doe := yoe * 365 + Int.fdiv yoe 4 - Int.fdiv yoe 100 + doy
  era * 146097 + doe - 719468

/-- A start/end argument of a range key range: a literal date (datetime
arguments reduce to their `.date()`) or a string naming a widget
input. -/
inductive DateSpec where
  | lit : Date → DateSpec
  | name : String → DateSpec
  deriving DecidableEq, Repr

/-- The Python exceptions raised by the key ranges. -/
inductive PyErr where
  | valueError : String → PyErr
  | keyError : String → PyErr
  deriving DecidableEq, Repr

/-- The report's cleaned inputs, restricted to the date-valued entries
a key range reads. -/
abbrev DateInputs := List (String × Date)

/-- `clean_inputs[name]` lookup. -/
def lookupDate : DateInputs → String → Option Date
  | [], _ => Option.none
  | (k, v) :: rest, key => if k = key then some v else lookupDate rest key

/-- `EpochKeyRange._resolve_date` (sources/key_range.py): a string
resolves from the cleaned inputs, with a missing name degrading the
KeyError to `ValueError('Start or end date name not found in
widgets.')`; literal dates pass through. -/
def EpochKeyRange.resolve (spec : DateSpec) (inputs : DateInputs) :
    Except PyErr Date :=
  match spec with
  | DateSpec.lit d => Except.ok d
  | DateSpec.name s =>
    match lookupDate inputs s with
    | some d => Except.ok d
    | Option.none =>
      Except.error
        (PyErr.valueError "Start or end date name not found in widgets.")

/-- `MonthKeyRange._resolve_date` (sources/key_range.py): as for the
epoch range, but a failed lookup raises the bare KeyError
(`clean_inputs[date]` with no try/except). -/
def MonthKeyRange.resolve (spec : DateSpec) (inputs : DateInputs) :
    Except PyErr Date :=
  match spec with
  | DateSpec.lit d => Except.ok d
  | DateSpec.name s =>
    match lookupDate inputs s with
    | some d => Except.ok d
    | Option.none => Except.error (PyErr.keyError s)

/-- The yield loop of `EpochKeyRange.get_row_keys`:
`while date <= end: yield datetime_to_hours(date)/24; date += 1 day`,
embedded with a fuel bound on the iteration count; every theorem below
holds for every fuel value. -/
def epochLoop : Nat → Date → Date → List Int
  | 0, _, _ => []
  | fuel + 1, d, e =>
    if Date.leb d e then toEpochDays d :: epochLoop fuel (Date.nextDay d) e
    else []

/-- `EpochKeyRange.get_row_keys`: resolve both bounds, raise
`ValueError('Start date must be earlier than end date.')` when
start > end, otherwise yield one epoch-day value per day in range. -/
def EpochKeyRange.get_row_keys (fuel : Nat) (start stop : DateSpec)
    (inputs : DateInputs) : Except PyErr (List Int) := do
  let date ← EpochKeyRange.resolve start inputs
  let e ← EpochKeyRange.resolve stop inputs
  if Date.ltb e date then
    Except.error (PyErr.valueError "Start date must be earlier than end date.")
  else
    Except.ok (epochLoop fuel date e)

/-- The yield loop of `MonthKeyRange.get_row_keys`:
`while date <= end: yield date; date = (date + 31 days).replace(day=1)`,
with the same fuel convention as `epochLoop`. -/
def monthLoop : Nat → Date → Date → List Date
  | 0, _, _ => []
  | fuel + 1, d, e =>
    if Date.leb d e then d :: monthLoop fuel ((Date.plus31 d).firstOfMonth) e
    else []

/-- `MonthKeyRange.get_row_keys`: resolve the start bound, clamp it to
the first of its month, resolve the end bound, and yield one date per
month while `date <= end`. There is no start/end ordering check. -/
def MonthKeyRange.get_row_keys (fuel : Nat) (start stop : DateSpec)
    (inputs : DateInputs) : Except PyErr (List Date) := do
  let date ← MonthKeyRange.resolve start inputs
  let date := date.firstOfMonth
  let e ← MonthKeyRange.resolve stop inputs
  Except.ok (monthLoop fuel date e)

/-- Python `current + new` as the merge-column reducers use it: numbers
add, strings concatenate, mixed operand types raise TypeError. -/
def cellAdd : Cell → Cell → Option Cell
  | Cell.num a, Cell.num b => some (Cell.num (a + b))
  | Cell.str a, Cell.str b => some (Cell.str (a ++ b))
  | _, _ => Option.none

/-- `merge.Sum.merge` (sources/merge.py): None-None merges to None, a
single None yields the other value, and two non-None values are
added. -/
def Sum.merge (current new : Cell) : Option Cell :=
  if current = Cell.none ∧ new = Cell.none then some Cell.none
  else if current = Cell.none then some new
  else if new = Cell.none then some current
  else cellAdd current new

theorem dictGet_dictSet (d : Dict) (k : String) (v : Cell) (key : String) :
    dictGet (dictSet d k v) key = if k = key then some v else dictGet d key := by
  induction d with
  | nil =>
    simp only [dictSet, dictGet]
  | cons p rest ih =>
    obtain ⟨pk, pv⟩ := p
    by_cases h1 : pk = k
    · subst h1
      by_cases h2 : pk = key
      · subst h2
        simp [dictSet, dictGet]
      · simp [dictSet, dictGet, h2]
    · by_cases h2 : pk = key
      · subst h2
        have h3 : ¬ k = pk := fun h => h1 h.symm
        simp [dictSet, dictGet, h1, h3]
      · simp [dictSet, dictGet, h1, h2, ih]

theorem dictGet_isSome_dictSet (d : Dict) (k : String) (v : Cell) (key : String)
    (h : (dictGet d key).isSome) : (dictGet (dictSet d k v) key).isSome := by
  rw [dictGet_dictSet]
  by_cases hk : k = key <;> simp [hk, h]

theorem dictGet_isSome_dictUpdate (d e : Dict) (key : String)
    (h : (dictGet d key).isSome) : (dictGet (dictUpdate d e) key).isSome := by
  induction e generalizing d with
  | nil => exact h
  | cons p rest ih =>
    exact ih (dictSet d p.1 p.2) (dictGet_isSome_dictSet d p.1 p.2 key h)

theorem keyLt_irrefl (a : Key) : keyLt a a = false := by
  induction a with
  | nil => rfl
  | cons x xs ih => simp [keyLt, ih]

theorem keyLt_trans {a b c : Key} (hab : keyLt a b = true)
    (hbc : keyLt b c = true) : keyLt a c = true := by
  induction a generalizing b c with
  | nil =>
    cases b with
    | nil => simp [keyLt] at hab
    | cons y ys =>
      cases c with
      | nil => simp [keyLt] at hbc
      | cons z zs => simp [keyLt]
  | cons x xs ih =>
    cases b with
    | nil => simp [keyLt] at hab
    | cons y ys =>
      cases c with
      | nil => simp [keyLt] at hbc
      | cons z zs =>
        simp only [keyLt] at hab hbc ⊢
        rcases lt_trichotomy x y with hxy | hxy | hxy
        · rcases lt_trichotomy y z with hyz | hyz | hyz
          · have hxz : x < z := lt_trans hxy hyz
            simp [hxz]
          · subst hyz
            simp [hxy]
          · rw [if_neg (not_lt.mpr (le_of_lt hyz)), if_pos hyz] at hbc
            exact absurd hbc (by simp)
        · subst hxy
          rw [if_neg (lt_irrefl x), if_neg (lt_irrefl x)] at hab
          rcases lt_trichotomy x z with hxz | hxz | hxz
          · simp [hxz]
          · subst hxz
            rw [if_neg (lt_irrefl x), if_neg (lt_irrefl x)] at hbc
            rw [if_neg (lt_irrefl x), if_neg (lt_irrefl x)]
            exact ih hab hbc
          · rw [if_neg (not_lt.mpr (le_of_lt hxz)), if_pos hxz] at hbc
            exact absurd hbc (by simp)
        · rw [if_neg (not_lt.mpr (le_of_lt hxy)), if_pos hxy] at hab
          exact absurd hab (by simp)

theorem keyLt_asymm {a b : Key} (hab : keyLt a b = true) :
    keyLt b a = false := by
  cases h : keyLt b a
  · rfl
  · have h2 := keyLt_trans hab h
    rw [keyLt_irrefl] at h2
    exact absurd h2 (by simp)

theorem keyLt_connex {a b : Key} (hab : keyLt a b = false)
    (hba : keyLt b a = false) : a = b := by
  induction a generalizing b with
  | nil =>
    cases b with
    | nil => rfl
    | cons y ys => simp [keyLt] at hab
  | cons x xs ih =>
    cases b with
    | nil => simp [keyLt] at hba
    | cons y ys =>
      simp only [keyLt] at hab hba
      rcases lt_trichotomy x y with hxy | hxy | hxy
      · simp [hxy] at hab
      · subst hxy
        rw [if_neg (lt_irrefl x), if_neg (lt_irrefl x)] at hab hba
        rw [ih hab hba]
      · simp [hxy] at hba

theorem keyLt_total (a b : Key) :
    keyLt a b = true ∨ a = b ∨ keyLt b a = true := by
  cases h1 : keyLt a b
  · cases h2 : keyLt b a
    · exact Or.inr (Or.inl (keyLt_connex h1 h2))
    · exact Or.inr (Or.inr rfl)
  · exact Or.inl rfl

theorem keyLe_of_keyLt {a b : Key} (h : keyLt a b = true) : keyLe a b = true := by
  unfold keyLe
  rw [keyLt_asymm h]
  rfl

theorem keyLt_of_keyLe_ne {a b : Key} (hle : keyLe a b = true)
    (hne : a ≠ b) : keyLt a b = true := by
  unfold keyLe at hle
  cases h : keyLt a b
  · exact absurd (keyLt_connex h (by simpa using hle)) hne
  · rfl

theorem keyLe_trans {a b c : Key} (hab : keyLe a b = true)
    (hbc : keyLe b c = true) : keyLe a c = true := by
  have hba : keyLt b a = false := by simpa [keyLe] using hab
  have hcb : keyLt c b = false := by simpa [keyLe] using hbc
  have hgoal : keyLt c a = false := by
    cases h : keyLt c a
    · rfl
    · exfalso
      rcases keyLt_total b c with hbc2 | heq | hcb2
      · have h3 := keyLt_trans hbc2 h
        simp [hba] at h3
      · subst heq
        simp [hba] at h
      · simp [hcb] at hcb2
  simpa [keyLe] using hgoal

theorem keyLt_of_keyLt_keyLe {a b c : Key} (hab : keyLt a b = true)
    (hbc : keyLe b c = true) : keyLt a c = true := by
  by_cases hbceq : b = c
  · subst hbceq
    exact hab
  · exact keyLt_trans hab (keyLt_of_keyLe_ne hbc hbceq)

theorem keyLt_of_keyLe_keyLt {a b c : Key} (hab : keyLe a b = true)
    (hbc : keyLt b c = true) : keyLt a c = true := by
  by_cases habeq : a = b
  · subst habeq
    exact hbc
  · exact keyLt_trans (keyLt_of_keyLe_ne hab habeq) hbc

theorem pyMerge_cons_nil (a : KeyedRow) (as : List KeyedRow) :
    pyMerge (a :: as) [] = a :: as :=
  pyMerge.eq_2 (a :: as) (by simp)

theorem mem_pyMerge (l1 l2 : List KeyedRow) (x : KeyedRow) :
    x ∈ pyMerge l1 l2 ↔ x ∈ l1 ∨ x ∈ l2 := by
  induction l1, l2 using pyMerge.induct with
  | case1 l2 => simp [pyMerge]
  | case2 l1 => simp [pyMerge]
  | case3 a as b bs h ih =>
    rw [pyMerge, if_pos h]
    simp only [List.mem_cons] at ih ⊢
    rw [ih]
    tauto
  | case4 a as b bs h ih =>
    rw [pyMerge, if_neg h]
    simp only [List.mem_cons] at ih ⊢
    rw [ih]
    tauto

theorem mem_kMerge (streams : List (List KeyedRow)) (x : KeyedRow) :
    x ∈ kMerge streams ↔ ∃ s ∈ streams, x ∈ s := by
  induction streams with
  | nil => simp [kMerge]
  | cons s rest ih =>
    unfold kMerge at ih ⊢
    rw [List.foldr_cons, mem_pyMerge, ih]
    simp

theorem sortedPairs_pyMerge {l1 l2 : List KeyedRow}
    (h1 : sortedPairs l1) (h2 : sortedPairs l2) :
    sortedPairs (pyMerge l1 l2) := by
  induction l1, l2 using pyMerge.induct with
  | case1 l2 => simpa [pyMerge] using h2
  | case2 l1 => simpa [pyMerge] using h1
  | case3 a as b bs h ih =>
    rw [sortedPairs, List.pairwise_cons] at h1 h2
    obtain ⟨ha, has⟩ := h1
    obtain ⟨hb, hbs⟩ := h2
    rw [pyMerge, if_pos h]
    rw [sortedPairs, List.pairwise_cons]
    refine ⟨?_, ?_⟩
    · intro y hy
      rw [mem_pyMerge] at hy
      rcases hy with hy | hy
      · rcases List.mem_cons.mp hy with rfl | hy
        · exact keyLe_of_keyLt h
        · exact keyLe_trans (keyLe_of_keyLt h) (ha y hy)
      · exact hb y hy
    · exact ih (by rw [sortedPairs, List.pairwise_cons]; exact ⟨ha, has⟩) hbs
  | case4 a as b bs h ih =>
    rw [sortedPairs, List.pairwise_cons] at h1 h2
    obtain ⟨ha, has⟩ := h1
    obtain ⟨hb, hbs⟩ := h2
    have hab : keyLe a.1 b.1 = true := by
      unfold keyLe
      cases hh : keyLt b.1 a.1
      · rfl
      · exact absurd hh h
    rw [pyMerge, if_neg h]
    rw [sortedPairs, List.pairwise_cons]
    refine ⟨?_, ?_⟩
    · intro y hy
      rw [mem_pyMerge] at hy
      rcases hy with hy | hy
      · exact ha y hy
      · rcases List.mem_cons.mp hy with rfl | hy
        · exact hab
        · exact keyLe_trans hab (hb y hy)
    · exact ih has (by rw [sortedPairs, List.pairwise_cons]; exact ⟨hb, hbs⟩)

theorem sortedPairs_kMerge {streams : List (List KeyedRow)}
    (h : ∀ s ∈ streams, sortedPairs s) : sortedPairs (kMerge streams) := by
  induction streams with
  | nil => exact List.Pairwise.nil
  | cons s rest ih =>
    unfold kMerge
    rw [List.foldr_cons]
    exact sortedPairs_pyMerge (h s (List.mem_cons_self s rest))
      (ih (fun t ht => h t (List.mem_cons_of_mem s ht)))

theorem mergeLoop_keys_some (posts : List (Dict → Dict)) (tmpl : Dict)
    (pairs : List KeyedRow) :
    ∀ (ck : Key) (cr : Dict), sortedPairs pairs →
      (∀ p ∈ pairs, p.1 ≠ ([] : Key)) → ck ≠ [] →
      (∀ p ∈ pairs, keyLe ck p.1 = true) →
      ((mergeLoop posts tmpl pairs (some (ck, cr))).map Prod.fst).Pairwise
          (fun a b => keyLt a b = true)
      ∧ ∀ k, k ∈ (mergeLoop posts tmpl pairs (some (ck, cr))).map Prod.fst ↔
          (k = ck ∨ ∃ p ∈ pairs, p.1 = k) := by
  induction pairs with
  | nil =>
    intro ck cr _ _ _ _
    constructor
    · simp [mergeLoop]
    · intro k
      simp [mergeLoop]
  | cons hd rest ih =>
    intro ck cr hs hne hckne hle
    obtain ⟨key, srow⟩ := hd
    rw [sortedPairs, List.pairwise_cons] at hs
    obtain ⟨hhd, hrest⟩ := hs
    by_cases hck : ck ≠ [] ∧ ck = key
    · obtain ⟨_, hckeq⟩ := hck
      subst hckeq
      rw [mergeLoop, if_pos ⟨hckne, rfl⟩]
      have ihr := ih ck (dictUpdate cr srow) hrest
        (fun p hp => hne p (List.mem_cons_of_mem _ hp)) hckne
        (fun p hp => hhd p hp)
      obtain ⟨ihpw, ihmem⟩ := ihr
      refine ⟨ihpw, ?_⟩
      intro k
      rw [ihmem]
      constructor
      · rintro (rfl | ⟨p, hp, rfl⟩)
        · exact Or.inl rfl
        · exact Or.inr ⟨p, List.mem_cons_of_mem _ hp, rfl⟩
      · rintro (rfl | ⟨p, hp, rfl⟩)
        · exact Or.inl rfl
        · rcases List.mem_cons.mp hp with rfl | hp
          · exact Or.inl rfl
          · exact Or.inr ⟨p, hp, rfl⟩
    · have hckey : ck ≠ key := by
        intro h
        exact hck ⟨hckne, h⟩
      rw [mergeLoop, if_neg hck]
      have hkeyne : key ≠ ([] : Key) :=
        hne (key, srow) (List.mem_cons_self _ _)
      have ihr := ih key (dictUpdate tmpl srow) hrest
        (fun p hp => hne p (List.mem_cons_of_mem _ hp)) hkeyne
        (fun p hp => hhd p hp)
      obtain ⟨ihpw, ihmem⟩ := ihr
      have hltkey : keyLt ck key = true :=
        keyLt_of_keyLe_ne (hle (key, srow) (List.mem_cons_self _ _)) hckey
      constructor
      · rw [List.map_cons, List.pairwise_cons]
        refine ⟨?_, ihpw⟩
        intro y hy
        rcases (ihmem y).mp hy with rfl | ⟨p, hp, rfl⟩
        · exact hltkey
        · exact keyLt_of_keyLt_keyLe hltkey (hhd p hp)
      · intro k
        rw [List.map_cons, List.mem_cons, ihmem]
        constructor
        · rintro (rfl | rfl | ⟨p, hp, rfl⟩)
          · exact Or.inl rfl
          · exact Or.inr ⟨(k, srow), List.mem_cons_self _ _, rfl⟩
          · exact Or.inr ⟨p, List.mem_cons_of_mem _ hp, rfl⟩
        · rintro (rfl | ⟨p, hp, rfl⟩)
          · exact Or.inl rfl
          · rcases List.mem_cons.mp hp with rfl | hp
            · exact Or.inr (Or.inl rfl)
            · exact Or.inr (Or.inr ⟨p, hp, rfl⟩)

theorem mergeLoop_keys_none (posts : List (Dict → Dict)) (tmpl : Dict)
    (pairs : List KeyedRow) (hs : sortedPairs pairs)
    (hne : ∀ p ∈ pairs, p.1 ≠ ([] : Key)) :
    ((mergeLoop posts tmpl pairs Option.none).map Prod.fst).Pairwise
        (fun a b => keyLt a b = true)
    ∧ ∀ k, k ∈ (mergeLoop posts tmpl pairs Option.none).map Prod.fst ↔
        ∃ p ∈ pairs, p.1 = k := by
  cases pairs with
  | nil =>
    constructor
    · simp [mergeLoop]
    · intro k
      simp [mergeLoop]
  | cons hd rest =>
    obtain ⟨key, srow⟩ := hd
    rw [mergeLoop]
    rw [sortedPairs, List.pairwise_cons] at hs
    obtain ⟨hhd, hrest⟩ := hs
    have h := mergeLoop_keys_some posts tmpl rest key (dictUpdate tmpl srow)
      hrest (fun p hp => hne p (List.mem_cons_of_mem _ hp))
      (hne (key, srow) (List.mem_cons_self _ _))
      (fun p hp => hhd p hp)
    obtain ⟨hpw, hmem⟩ := h
    refine ⟨hpw, ?_⟩
    intro k
    rw [hmem]
    constructor
    · rintro (rfl | ⟨p, hp, rfl⟩)
      · exact ⟨(k, srow), List.mem_cons_self _ _, rfl⟩
      · exact ⟨p, List.mem_cons_of_mem _ hp, rfl⟩
    · rintro ⟨p, hp, rfl⟩
      rcases List.mem_cons.mp hp with rfl | hp
      · exact Or.inl rfl
      · exact Or.inr ⟨p, hp, rfl⟩

theorem applyPosts_isSome (posts : List (Dict → Dict))
    (hposts : ∀ f ∈ posts, ∀ d c, (dictGet d c).isSome →
      (dictGet (f d) c).isSome)
    (row : Dict) (c : String) (h : (dictGet row c).isSome) :
    (dictGet (applyPosts posts row) c).isSome := by
  induction posts generalizing row with
  | nil => exact h
  | cons f fs ih =>
    show (dictGet (applyPosts fs (f row)) c).isSome
    exact ih (fun g hg => hposts g (List.mem_cons_of_mem _ hg)) (f row)
      (hposts f (List.mem_cons_self _ _) row c h)

theorem mergeLoop_presence (posts : List (Dict → Dict)) (tmpl : Dict)
    (hposts : ∀ f ∈ posts, ∀ d c, (dictGet d c).isSome →
      (dictGet (f d) c).isSome)
    (c : String) (htmpl : (dictGet tmpl c).isSome)
    (pairs : List KeyedRow) :
    ∀ acc, (∀ ck cr, acc = some (ck, cr) → (dictGet cr c).isSome) →
      ∀ p ∈ mergeLoop posts tmpl pairs acc, (dictGet p.2 c).isSome := by
  induction pairs with
  | nil =>
    intro acc hacc p hp
    cases acc with
    | none => simp [mergeLoop] at hp
    | some a =>
      obtain ⟨ck, cr⟩ := a
      simp only [mergeLoop, List.mem_singleton] at hp
      subst hp
      exact applyPosts_isSome posts hposts cr c (hacc ck cr rfl)
  | cons hd rest ih =>
    intro acc hacc p hp
    obtain ⟨key, srow⟩ := hd
    cases acc with
    | none =>
      rw [mergeLoop] at hp
      refine ih (some (key, dictUpdate tmpl srow)) ?_ p hp
      intro ck cr h
      injection h with h2
      injection h2 with h3 h4
      rw [← h4]
      exact dictGet_isSome_dictUpdate tmpl srow c htmpl
    | some a =>
      obtain ⟨ck, cr⟩ := a
      rw [mergeLoop] at hp
      by_cases hck : ck ≠ [] ∧ ck = key
      · rw [if_pos hck] at hp
        refine ih (some (ck, dictUpdate cr srow)) ?_ p hp
        intro ck2 cr2 h
        injection h with h2
        injection h2 with h3 h4
        rw [← h4]
        exact dictGet_isSome_dictUpdate cr srow c (hacc ck cr rfl)
      · rw [if_neg hck] at hp
        rcases List.mem_cons.mp hp with rfl | hp2
        · exact applyPosts_isSome posts hposts cr c (hacc ck cr rfl)
        · refine ih (some (key, dictUpdate tmpl srow)) ?_ p hp2
          intro ck2 cr2 h
          injection h with h2
          injection h2 with h3 h4
          rw [← h4]
          exact dictGet_isSome_dictUpdate tmpl srow c htmpl

theorem dictGet_emptyRow_isSome (columns : List String) (c : String)
    (hc : c ∈ columns) : (dictGet (emptyRow columns) c).isSome := by
  induction columns with
  | nil => cases hc
  | cons x xs ih =>
    rw [emptyRow, List.map_cons]
    by_cases h : x = c
    · simp [dictGet, h]
    · rcases List.mem_cons.mp hc with rfl | hc2
      · exact absurd rfl h
      · simpa [dictGet, h, emptyRow] using ih hc2

/-- C1: when every input stream (each source's `get_rows` stream and
the key-range stream) yields its `(key, partial_row)` pairs in
non-decreasing key order (and, as for every report, the keys are
non-empty tuples), the merge in `Report._get_rows` emits rows whose
keys are strictly increasing - so no key is emitted twice - and a key
is emitted if and only if it occurs in some source stream or in the
key-range stream: exactly one row per distinct key of the union. -/
theorem c1_one_row_per_distinct_key
    (posts : List (Dict → Dict)) (columns : List String)
    (sourceStreams : List (List KeyedRow)) (keyRows : List KeyedRow)
    (hsorted : ∀ s ∈ sourceStreams, sortedPairs s)
    (hksorted : sortedPairs keyRows)
    (hne : ∀ s ∈ sourceStreams, ∀ p ∈ s, p.1 ≠ ([] : Key))
    (hkne : ∀ p ∈ keyRows, p.1 ≠ ([] : Key)) :
    ((getRows posts columns sourceStreams keyRows).map Prod.fst).Pairwise
        (fun a b => keyLt a b = true)
    ∧ ∀ k, k ∈ (getRows posts columns sourceStreams keyRows).map Prod.fst ↔
        ((∃ s ∈ sourceStreams, ∃ p ∈ s, p.1 = k) ∨ ∃ p ∈ keyRows, p.1 = k) := by
  have hall : ∀ s ∈ sourceStreams ++ [keyRows], sortedPairs s := by
    intro s hs
    rcases List.mem_append.mp hs with h | h
    · exact hsorted s h
    · rw [List.mem_singleton] at h
      subst h
      exact hksorted
  have hallne : ∀ p ∈ kMerge (sourceStreams ++ [keyRows]), p.1 ≠ ([] : Key) := by
    intro p hp
    rcases (mem_kMerge _ p).mp hp with ⟨s, hs, hps⟩
    rcases List.mem_append.mp hs with h | h
    · exact hne s h p hps
    · rw [List.mem_singleton] at h
      subst h
      exact hkne p hps
  have h := mergeLoop_keys_none posts (emptyRow columns)
    (kMerge (sourceStreams ++ [keyRows])) (sortedPairs_kMerge hall) hallne
  obtain ⟨hpw, hmem⟩ := h
  refine ⟨hpw, fun k => ?_⟩
  unfold getRows
  rw [hmem k]
  constructor
  · rintro ⟨p, hp, rfl⟩
    rcases (mem_kMerge _ p).mp hp with ⟨s, hs, hps⟩
    rcases List.mem_append.mp hs with h | h
    · exact Or.inl ⟨s, h, p, hps, rfl⟩
    · rw [List.mem_singleton] at h
      subst h
      exact Or.inr ⟨p, hps, rfl⟩
  · rintro (⟨s, hs, p, hps, rfl⟩ | ⟨p, hp, rfl⟩)
    · exact ⟨p, (mem_kMerge _ p).mpr
        ⟨s, List.mem_append.mpr (Or.inl hs), hps⟩, rfl⟩
    · exact ⟨p, (mem_kMerge _ p).mpr
        ⟨keyRows, List.mem_append.mpr (Or.inr (List.mem_singleton.mpr rfl)),
          hp⟩, rfl⟩

/-- Witness for C1 at a concrete run: one source with a single row at
key `(1,)` and a key range contributing keys `(1,)` and `(2,)`. -/
theorem c1_one_row_per_distinct_key_witness :
    ((getRows [] ["k", "a"] [[([1], [("a", Cell.num 1)])]]
        [([1], [("k", Cell.num 1)]), ([2], [("k", Cell.num 2)])]).map
        Prod.fst).Pairwise (fun a b => keyLt a b = true) :=
  (c1_one_row_per_distinct_key [] ["k", "a"]
    [[([1], [("a", Cell.num 1)])]]
    [([1], [("k", Cell.num 1)]), ([2], [("k", Cell.num 2)])]
    (by decide) (by decide) (by decide) (by decide)).1

/-- C2: every row emitted by `Report._get_rows` contains every declared
column name (because the accumulator is seeded from the all-None
template row, updates never remove keys, and the sources'
`post_process` hooks preserve the columns they are given); in the
concrete scenario where the key range yields the two epoch-day keys
14640 and 14641 and the single source returns no rows, exactly two rows
are emitted and every non-key column is None. -/
theorem c2_rows_have_all_columns
    (posts : List (Dict → Dict)) (columns : List String)
    (sourceStreams : List (List KeyedRow)) (keyRows : List KeyedRow)
    (hposts : ∀ f ∈ posts, ∀ d c, (dictGet d c).isSome →
      (dictGet (f d) c).isSome) :
    (∀ p ∈ getRows posts columns sourceStreams keyRows,
      ∀ c ∈ columns, (dictGet p.2 c).isSome)
    ∧ getRows [fun r => r] ["day", "widgets"] [[]]
        (getKeyRows [("day", [14640, 14641])]) =
        [([14640], [("day", Cell.num 14640), ("widgets", Cell.none)]),
         ([14641], [("day", Cell.num 14641), ("widgets", Cell.none)])] := by
  constructor
  · intro p hp c hc
    exact mergeLoop_presence posts (emptyRow columns) hposts c
      (dictGet_emptyRow_isSome columns c hc)
      (kMerge (sourceStreams ++ [keyRows])) Option.none
      (fun ck cr h => by cases h) p hp
  · simp [getRows, kMerge, getKeyRows, keyProduct, emptyRow, mergeLoop,
      pyMerge, applyPosts, dictUpdate, dictSet, keyLt]

/-- Witness for C2 at a concrete run: in the epoch-day scenario the
first emitted row holds the non-key column `widgets` (with value None). -/
theorem c2_rows_have_all_columns_witness :
    (dictGet [("day", Cell.num 14640), ("widgets", Cell.none)] "widgets").isSome :=
  (c2_rows_have_all_columns [fun r => r] ["day", "widgets"] [[]]
      (getKeyRows [("day", [14640, 14641])])
      (fun f hf d c h => by
        rw [List.mem_singleton] at hf
        subst hf
        exact h)).1
    ([14640], [("day", Cell.num 14640), ("widgets", Cell.none)])
    (by simp [getRows, kMerge, getKeyRows, keyProduct, emptyRow, mergeLoop,
      pyMerge, applyPosts, dictUpdate, dictSet, keyLt]) "widgets" (by decide)

/-- C3: with one source emitting `{'a': 1}` at key `(1,)`, another
emitting `{'b': 2}` at the same key, and the key range also yielding
`(1,)`, `Report._get_rows` emits a single merged row binding the key
column to 1, `a` to 1 and `b` to 2. -/
theorem c3_same_key_rows_merge :
    getRows [fun r => r, fun r => r] ["k", "a", "b"]
      [[([1], [("a", Cell.num 1)])], [([1], [("b", Cell.num 2)])]]
      (getKeyRows [("k", [1])]) =
      [([1], [("k", Cell.num 1), ("a", Cell.num 1), ("b", Cell.num 2)])] := by
  simp [getRows, kMerge, getKeyRows, keyProduct, emptyRow, mergeLoop,
      pyMerge, applyPosts, dictUpdate, dictSet, keyLt]

theorem foldl_incrementFooterState_incrementComplete
    (cols : List (String × Column)) (rows : List KeyedRow) (st : FooterState) :
    (rows.foldl (fun s p => incrementFooterState cols s p.2) st).incrementComplete
      = st.incrementComplete := by
  induction rows generalizing st with
  | nil => rfl
  | cons r rest ih =>
    rw [List.foldl_cons, ih]
    rfl

theorem foldl_incrementFooterState_finalized
    (cols : List (String × Column)) (rows : List KeyedRow) (st : FooterState) :
    (rows.foldl (fun s p => incrementFooterState cols s p.2) st).finalized
      = st.finalized := by
  induction rows generalizing st with
  | nil => rfl
  | cons r rest ih =>
    rw [List.foldl_cons, ih]
    rfl

/-- C7: calling `Report._get_footer` before the `_get_rows` stream has
been fully exhausted raises a ValueError, whatever number of rows `k`
the consumer has pulled so far; once the stream is exhausted, footer
finalization is idempotent: the first `_get_footer` call finalizes and
returns the footer, and a second call on the resulting state returns
the very same finalized footer. -/
theorem c7_footer_error_before_exhaustion_then_idempotent
    (cols : List (String × Column)) (posts : List (Dict → Dict))
    (sourceStreams : List (List KeyedRow)) (keyRows : List KeyedRow)
    (k : Nat) :
    getFooterState cols (pullRows cols posts sourceStreams keyRows k) =
      Except.error
        "You must exhaust report._get_rows before you can access the footer."
    ∧ ∃ stf f,
        getFooterState cols (exhaustRows cols posts sourceStreams keyRows) =
          Except.ok (stf, f)
        ∧ getFooterState cols stf = Except.ok (stf, f) := by
  constructor
  · have h1 : (pullRows cols posts sourceStreams keyRows k).incrementComplete
        = false := by
      unfold pullRows
      rw [foldl_incrementFooterState_incrementComplete]
      rfl
    simp [getFooterState, h1]
  · have hc : (exhaustRows cols posts sourceStreams keyRows).incrementComplete
        = true := rfl
    have hf : (exhaustRows cols posts sourceStreams keyRows).finalized
        = false := by
      show ((getRows posts (cols.map Prod.fst) sourceStreams keyRows).foldl
        (fun st p => incrementFooterState cols st p.2)
        (initFooterState cols)).finalized = false
      rw [foldl_incrementFooterState_finalized]
      rfl
    refine ⟨{ exhaustRows cols posts sourceStreams keyRows with
        footer := finalizeFooterDict cols
          (exhaustRows cols posts sourceStreams keyRows).footer,
        finalized := true },
      finalizeFooterDict cols
        (exhaustRows cols posts sourceStreams keyRows).footer, ?_, ?_⟩
    · simp [getFooterState, hc, hf]
    · simp [getFooterState, hc]

/-- C4 is false on the code: with the footer enabled, a numeric running
total of 10 combined with the non-numeric cell "x" stays 10 - the
non-numeric cell is ignored, the total does not collapse to None - and
later numeric cells keep accumulating, so folding over [10, "x", 5]
ends at 15, not None. -/
theorem c4_counterexample :
    Column.increment_footer (Column.base true) (Cell.num 10) (Cell.str "x") =
      Cell.num 10
    ∧ List.foldl (Column.increment_footer (Column.base true)) Cell.none
        [Cell.num 10, Cell.str "x", Cell.num 5] = Cell.num 15
    ∧ Cell.num 10 ≠ Cell.none ∧ Cell.num 15 ≠ Cell.none := by
  refine ⟨rfl, ?_, by simp, by simp⟩
  show Cell.num (10 + 5) = Cell.num 15
  norm_num

theorem foldl_incrementDefault_num (cells : List Cell) (q : ℚ) :
    List.foldl (Column.increment_footer (Column.base true)) (Cell.num q) cells
      = Cell.num (q + (cells.filterMap numOf).sum) := by
  induction cells generalizing q with
  | nil => simp
  | cons c rest ih =>
    rw [List.foldl_cons]
    cases c with
    | none =>
      have h : Column.increment_footer (Column.base true) (Cell.num q)
          Cell.none = Cell.num q := rfl
      rw [h, ih]
      simp [numOf, List.filterMap_cons]
    | num b =>
      have h : Column.increment_footer (Column.base true) (Cell.num q)
          (Cell.num b) = Cell.num (q + b) := rfl
      rw [h, ih]
      simp [numOf, List.filterMap_cons, add_assoc]
    | str s =>
      have h : Column.increment_footer (Column.base true) (Cell.num q)
          (Cell.str s) = Cell.num q := rfl
      rw [h, ih]
      simp [numOf, List.filterMap_cons]

/-- C4 (amended): under the default footer accumulation with the footer
enabled, a non-numeric cell leaves a numeric running total unchanged
(it is ignored, not a permanent collapse): folding `increment_footer`
from the initial None total over any cell sequence yields the sum of
the numeric cells, and yields None exactly when no numeric cell has
occurred. -/
theorem c4_amended_nonnumeric_cells_ignored (cells : List Cell) :
    List.foldl (Column.increment_footer (Column.base true)) Cell.none cells =
      (if cells.filterMap numOf = [] then Cell.none
       else Cell.num (cells.filterMap numOf).sum) := by
  induction cells with
  | nil => simp
  | cons c rest ih =>
    rw [List.foldl_cons]
    cases c with
    | none =>
      have h : Column.increment_footer (Column.base true) Cell.none
          Cell.none = Cell.none := rfl
      rw [h, ih]
      simp [numOf, List.filterMap_cons]
    | num b =>
      have h : Column.increment_footer (Column.base true) Cell.none
          (Cell.num b) = Cell.num b := rfl
      rw [h, foldl_incrementDefault_num]
      simp [numOf, List.filterMap_cons]
    | str s =>
      have h : Column.increment_footer (Column.base true) Cell.none
          (Cell.str s) = Cell.none := rfl
      rw [h, ih]
      simp [numOf, List.filterMap_cons]

/-- C5: folding the default `increment_footer` (footer enabled) from
the initial None total over the cell sequence [10, None, 5] yields 15:
a None cell contributes nothing and does not reset the accumulator once
a number has been seen. -/
theorem c5_none_cell_does_not_reset :
    List.foldl (Column.increment_footer (Column.base true)) Cell.none
      [Cell.num 10, Cell.none, Cell.num 5] = Cell.num 15 := by
  show Cell.num (10 + 5) = Cell.num 15
  norm_num

/-- C6: for a derived Value column with the footer enabled, the
finalized footer equals the derive function applied to the footer
snapshot; in the concrete two-row run with (n, g) = (1, 2) and (3, 4)
the per-row derived ratios are 1/2 and 3/4, yet the finalized ratio
footer is the ratio of the summed columns, 4/6 = 2/3, which differs
from the sum 5/4 of the per-row derived values. -/
theorem c6_derived_footer_reruns_derive
    (derive : Dict → PyResult) (total : Cell) (footer : Dict) (v : Cell)
    (h : derive footer = PyResult.ok v) :
    Column.finalize_footer (Column.value true derive) total footer = v
    ∧ get_derived_value ratioDerive
        [("n", Cell.num 1), ("g", Cell.num 2), ("ratio", Cell.none)] =
        Cell.num (1/2)
    ∧ get_derived_value ratioDerive
        [("n", Cell.num 3), ("g", Cell.num 4), ("ratio", Cell.none)] =
        Cell.num (3/4)
    ∧ (∃ stf f,
        getFooterState c6cols
            (exhaustRows c6cols [derivedPost c6cols] c6streams []) =
          Except.ok (stf, f)
        ∧ dictGetD f "ratio" = Cell.num (2/3))
    ∧ Cell.num ((1 : ℚ)/2 + 3/4) ≠ Cell.num (2/3) := by
  refine ⟨?_, rfl, rfl, ?_,
    by simp only [ne_eq, Cell.num.injEq]; norm_num⟩
  · simp [Column.finalize_footer, h]
  · refine ⟨FooterState.mk true true
      [("n", Cell.num 4), ("g", Cell.num 6), ("ratio", Cell.num (2/3))] 2,
      [("n", Cell.num 4), ("g", Cell.num 6), ("ratio", Cell.num (2/3))],
      ?_, rfl⟩
    have hrows : getRows [derivedPost c6cols] (List.map Prod.fst c6cols)
        c6streams [] =
        [([1], [("n", Cell.num 1), ("g", Cell.num 2),
          ("ratio", Cell.num (1/2))]),
         ([2], [("n", Cell.num 3), ("g", Cell.num 4),
          ("ratio", Cell.num (3/4))])] := by
      simp +decide [getRows, kMerge, pyMerge, pyMerge_cons_nil, mergeLoop,
        emptyRow, dictUpdate, dictSet, applyPosts, derivedPost, c6cols,
        c6streams, get_derived_value, ratioDerive, dictGet, keyLt]
    have hex : exhaustRows c6cols [derivedPost c6cols] c6streams [] =
        FooterState.mk true false
          [("n", Cell.num (1 + 3)), ("g", Cell.num (2 + 4)),
            ("ratio", Cell.num (1/2 + 3/4))] 2 := by
      unfold exhaustRows
      rw [hrows]
      simp +decide [incrementFooterState, initFooterState, dictGetD, dictGet,
        dictSet, Column.increment_footer, Column.footerFlag, incrementDefault,
        c6cols]
    have hex2 : FooterState.mk true false
        [("n", Cell.num (1 + 3)), ("g", Cell.num (2 + 4)),
          ("ratio", Cell.num ((1 : ℚ)/2 + 3/4))] 2 =
        FooterState.mk true false
          [("n", Cell.num 4), ("g", Cell.num 6), ("ratio", Cell.num (5/4))]
          2 := by
      norm_num
    rw [hex, hex2]
    simp +decide [getFooterState, finalizeFooterDict, c6cols, dictGetD,
      dictGet, dictSet, Column.finalize_footer, ratioDerive]
    norm_num

/-- Witness for C6: the derive function applied to the concrete footer
snapshot (n = 4, g = 6) gives the finalized footer 4/6. -/
theorem c6_derived_footer_reruns_derive_witness :
    Column.finalize_footer (Column.value true ratioDerive) Cell.none
      [("n", Cell.num 4), ("g", Cell.num 6), ("ratio", Cell.num (5/4))] =
      Cell.num (4/6) :=
  (c6_derived_footer_reruns_derive ratioDerive Cell.none
    [("n", Cell.num 4), ("g", Cell.num 6), ("ratio", Cell.num (5/4))]
    (Cell.num (4/6)) rfl).1

/-- C8 is false on the code: after a successful validation stored a
non-empty clean snapshot, a failing `clean_user_inputs` call returns a
non-empty error list and leaves the dirty snapshot untouched, but it
RESETS the clean snapshot to empty (`self.clean_inputs = {}`) instead
of leaving it untouched. -/
theorem c8_counterexample :
    (clean_user_inputs [c8widget] c8state c8kwargs).1 ≠ []
    ∧ (clean_user_inputs [c8widget] c8state c8kwargs).2.cleanInputs ≠
        c8state.cleanInputs
    ∧ (clean_user_inputs [c8widget] c8state c8kwargs).2.dirtyInputs =
        c8state.dirtyInputs := by
  decide

/-- C8 (amended): when any widget fails validation,
`clean_user_inputs` returns the non-empty list of errors, leaves the
report's dirty input snapshot untouched, and resets the clean input
snapshot to empty (it does not preserve the previously validated clean
snapshot). -/
theorem c8_amended_errors_keep_dirty_reset_clean
    (widgets : List Widget) (st : InputState) (kwargs : Dict)
    (herr : (clean_user_inputs widgets st kwargs).1 ≠ []) :
    (clean_user_inputs widgets st kwargs).2.dirtyInputs = st.dirtyInputs
    ∧ (clean_user_inputs widgets st kwargs).2.cleanInputs = [] := by
  simp only [clean_user_inputs] at herr ⊢
  by_cases h :
      (widgets.foldl (cleanStep kwargs) (st.dirtyInputs, [], [])).2.2 ≠ []
  · rw [if_pos h]
    exact ⟨rfl, rfl⟩
  · rw [if_neg h] at herr
    exact absurd herr h

/-- Witness for C8 (amended) at the concrete failing call. -/
theorem c8_amended_errors_keep_dirty_reset_clean_witness :
    (clean_user_inputs [c8widget] c8state c8kwargs).2.dirtyInputs =
      c8state.dirtyInputs
    ∧ (clean_user_inputs [c8widget] c8state c8kwargs).2.cleanInputs = [] :=
  c8_amended_errors_keep_dirty_reset_clean [c8widget] c8state c8kwargs
    (by decide)

/-- C9 is false on the code: `MonthKeyRange.get_row_keys` performs no
start/end ordering check - with the literal start 2020-03-01 later than
the literal end 2020-01-15 it raises nothing and silently yields zero
keys. -/
theorem c9_counterexample :
    MonthKeyRange.get_row_keys 1000 (DateSpec.lit (Date.mk 2020 3 1))
      (DateSpec.lit (Date.mk 2020 1 15)) [] = Except.ok [] := rfl

/-- C9 (amended): `EpochKeyRange.get_row_keys` raises the explicit
ordering ValueError whenever the resolved start is later than the
resolved end, and raises `ValueError('Start or end date name not found
in widgets.')` when the start bound names a missing input;
`MonthKeyRange.get_row_keys` raises the bare KeyError for a missing
start name, but has no ordering check: whenever the first day of the
start month is later than the end date it silently yields the empty
key list. All four statements hold for every fuel bound. -/
theorem c9_amended_ordering_and_lookup_errors
    (fuel : Nat) (inputs : DateInputs) (ds de : Date) (s : String)
    (hmiss : lookupDate inputs s = Option.none)
    (hgt : Date.ltb de ds = true) :
    EpochKeyRange.get_row_keys fuel (DateSpec.lit ds) (DateSpec.lit de)
        inputs =
      Except.error (PyErr.valueError "Start date must be earlier than end date.")
    ∧ EpochKeyRange.get_row_keys fuel (DateSpec.name s) (DateSpec.lit de)
        inputs =
      Except.error
        (PyErr.valueError "Start or end date name not found in widgets.")
    ∧ MonthKeyRange.get_row_keys fuel (DateSpec.name s) (DateSpec.lit de)
        inputs =
      Except.error (PyErr.keyError s)
    ∧ (Date.ltb de ds.firstOfMonth = true →
        MonthKeyRange.get_row_keys fuel (DateSpec.lit ds) (DateSpec.lit de)
            inputs =
          Except.ok []) := by
  refine ⟨?_, ?_, ?_, ?_⟩
  · simp [EpochKeyRange.get_row_keys, EpochKeyRange.resolve, hgt, Bind.bind,
      Except.bind]
  · simp [EpochKeyRange.get_row_keys, EpochKeyRange.resolve, hmiss, Bind.bind,
      Except.bind]
  · simp [MonthKeyRange.get_row_keys, MonthKeyRange.resolve, hmiss, Bind.bind,
      Except.bind]
  · intro h2
    have hleb : Date.leb ds.firstOfMonth de = false := by
      unfold Date.leb
      rw [h2]
      rfl
    have hloop : monthLoop fuel ds.firstOfMonth de = [] := by
      cases fuel with
      | zero => rfl
      | succ n =>
        unfold monthLoop
        rw [hleb]
        simp
    simp [MonthKeyRange.get_row_keys, MonthKeyRange.resolve, Bind.bind,
      Except.bind, hloop]

/-- Witness for C9 (amended) at concrete bounds: start 2020-03-01,
end 2020-01-15, and a missing input name. -/
theorem c9_amended_ordering_and_lookup_errors_witness :
    EpochKeyRange.get_row_keys 5 (DateSpec.lit (Date.mk 2020 3 1))
        (DateSpec.lit (Date.mk 2020 1 15)) [] =
      Except.error
        (PyErr.valueError "Start date must be earlier than end date.") :=
  (c9_amended_ordering_and_lookup_errors 5 [] (Date.mk 2020 3 1)
    (Date.mk 2020 1 15) "start" rfl (by decide)).1

/-- C10: for the merge-report Sum column's merge operation, None is an
identity element: merge(None, x) = x and merge(x, None) = x for every
x, merge(None, None) = None, and for non-None operands the result is
`current + new` - a sub-report that returns no value for a column never
disturbs the accumulated sum. -/
theorem c10_sum_merge_none_identity :
    (∀ x : Cell, Sum.merge Cell.none x = some x
      ∧ Sum.merge x Cell.none = some x)
    ∧ Sum.merge Cell.none Cell.none = some Cell.none
    ∧ ∀ c n : Cell, c ≠ Cell.none → n ≠ Cell.none →
        Sum.merge c n = cellAdd c n := by
  refine ⟨?_, ?_, ?_⟩
  · intro x
    cases x <;> simp [Sum.merge]
  · simp [Sum.merge]
  · intro c n hc hn
    simp [Sum.merge, hc, hn]

/-- Witness for C10 at two concrete non-None operands. -/
theorem c10_sum_merge_none_identity_witness :
    Sum.merge (Cell.num 2) (Cell.num 3) = cellAdd (Cell.num 2) (Cell.num 3) :=
  c10_sum_merge_none_identity.2.2 (Cell.num 2) (Cell.num 3) (by decide)
    (by decide)

end Bling

